import Mathlib

/-!
# Verification of bcbio ensemble consensus and PureCN control logic

Shallow embedding of the control logic of `bcbio/variation/ensemble.py` and
`bcbio/structural/purecn.py`.  Python dictionaries holding sample information
are embedded as structures, dictionary-of-list accumulators
(`collections.defaultdict(list)`) as association lists with append semantics,
external tool invocations as trace events, and fallible paths
(`assert`, `UnboundLocalError`, `TypeError`, indexing errors) as
`Option`/`Except` results.  Filesystem state (existence, modification time,
whether a VCF holds variant records) is a read-only environment `FS`.
-/

namespace Bcbio

/-- One entry of a sample's `data["variants"]` list: a per-caller call result.
The same shape is used for the ensemble `callinfo` dictionary produced by
`combine_calls` (which carries `vrn_file` and `bed_file`). -/
structure CallResult where
  variantcaller : String
  vrn_file : Option String := none
  vrn_file_batch : Option String := none
  bed_file : Option String := none
deriving DecidableEq, Repr

/-- The `data["metadata"]` dictionary: batch membership and phenotype tag. -/
structure Metadata where
  batch : Option String := none
  phenotype : Option String := none
deriving DecidableEq, Repr

/-- One sample's `data` dictionary, restricted to the keys read by
`ensemble.py`.  `name` is the two-element name tuple (`data["name"][1]` is the
sample name, and `data["name"][-1]` coincides with it for a pair);
`algorithm_keys` are the keys of `data["config"]["algorithm"]` and
`ensemble_keys` the keys of `data["config"]["algorithm"]["ensemble"]`. -/
structure Data where
  name : String × String
  metadata : Option Metadata := none
  variants : List CallResult := []
  algorithm_keys : List String := []
  ensemble_keys : List String := []
  work_bam : Option String := none
deriving DecidableEq, Repr

/-- Read-only filesystem environment: `fexists p` is `utils.file_exists`
(existence with non-zero size; the spec's "existence and non-emptiness checks
only"), `mtime p` the modification time, `hasVariants p` whether the file at
`p` holds at least one variant record (`vcfutils.vcf_has_variants`). -/
structure FS where
  fexists : String → Bool
  mtime : String → Int
  hasVariants : String → Bool

/-- Modelled from the spec: `utils.file_exists` (module `bcbio.utils` is not
part of the sources), "existence and non-emptiness checks only". -/
def file_exists (fs : FS) (p : String) : Bool := fs.fexists p

/-- Modelled from the spec: `utils.file_uptodate fname cmp_fname`
(module `bcbio.utils` is not part of the sources): the output is valid only
if it "exists AND is not older than" the compared input, which also must
exist for the comparison to be made. -/
def file_uptodate (fs : FS) (fname cmp_fname : String) : Bool :=
  file_exists fs fname && file_exists fs cmp_fname &&
    decide (fs.mtime fname ≥ fs.mtime cmp_fname)

/-- External process invocations (the trace of `do.run`-style calls and of
the external helpers `vcfutils.select_sample` and
`population.get_multisample_vcf`). -/
inductive Tool where
  | selectSample (in_file sample out_file : String)
  | multisampleVcf (fnames : List (Option String)) (batch_id caller : String)
  | variantEnsemble (batch_id : String)
  | recallEnsemble (batch_id : String)
  | snpeffEffects (in_vcf : String)
deriving DecidableEq, Repr

/-! ## defaultdict(list) as an association list -/

/-- Python `calls[key].append(v)` on a `collections.defaultdict(list)`: append to the
existing entry, or create a new singleton entry at the end. -/
def dictAppend {α : Type} (m : List (String × List α)) (key : String) (v : α) :
    List (String × List α) :=
  match m with
  | [] => [(key, [v])]
  | (k, vs) :: rest =>
    if k = key then (k, vs ++ [v]) :: rest else (k, vs) :: dictAppend rest key v

/-- Python `m[key]` on a `defaultdict(list)`: the stored list, or `[]` if absent. -/
def dictGet {α : Type} (m : List (String × List α)) (key : String) : List α :=
  match m with
  | [] => []
  | (k, vs) :: rest => if k = key then vs else dictGet rest key

/-- Membership test `key in m` for the association-list dictionary. -/
def dictHasKey {α : Type} (m : List (String × List α)) (key : String) : Bool :=
  match m with
  | [] => false
  | (k, _) :: rest => k = key || dictHasKey rest key

/-! ## `_has_ensemble` and `_group_by_batches` -/

/-- Embeds `_has_ensemble(data)`: more than one variant entry, at least one of them
with a non-`None` `vrn_file` or `vrn_file_batch`, and `"ensemble"` among the
algorithm configuration keys. -/
def _has_ensemble (data : Data) : Bool :=
  (decide (data.variants.length > 1) &&
    data.variants.any (fun x => x.vrn_file.isSome || x.vrn_file_batch.isSome)) &&
  data.algorithm_keys.contains "ensemble"

/-- Python `data.get("metadata", {}).get("batch")` followed by Python truthiness of
the `if batch:` test: the batch tag counts only when present and non-empty. -/
def truthyBatch (data : Data) : Option String :=
  match data.metadata.bind (·.batch) with
  | none => none
  | some b => if b = "" then none else some b

/-- The loop body of `_group_by_batches`: walk the samples, appending
qualifying tagged samples to their batch's group and untagged ones as
singleton groups keyed by `data["name"][-1]`; the `assert` that the singleton
key is not already a group key is modelled as returning `none`
(`AssertionError`). -/
def groupByBatchesGo (check_fn : Data → Bool) :
    List Data → List (String × List Data) → List Data →
    Option (List (String × List Data) × List Data)
  | [], batch_groups, extras => some (batch_groups, extras)
  | data :: rest, batch_groups, extras =>
    if check_fn data then
      match truthyBatch data with
      | some batch =>
          groupByBatchesGo check_fn rest (dictAppend batch_groups batch data) extras
      | none =>
          if dictHasKey batch_groups data.name.2 then none
          else
            groupByBatchesGo check_fn rest
              (batch_groups ++ [(data.name.2, [data])]) extras
    else groupByBatchesGo check_fn rest batch_groups (extras ++ [data])

/-- Embeds `_group_by_batches(samples, check_fn)`.  The Python argument is a list of
singleton lists `[data]`; the embedding works with the unwrapped `data`
records directly (the wrapping carries no information). -/
def _group_by_batches (samples : List Data) (check_fn : Data → Bool) :
    Option (List (String × List Data) × List Data) :=
  groupByBatchesGo check_fn samples [] []

/-! ## `_organize_variants` -/

/-- Substring occurrence on character lists: `pat` occurs somewhere in `s`. -/
def subOccurs : List Char → List Char → Bool
  | [], pat => pat.isEmpty
  | c :: rest, pat => pat.isPrefixOf (c :: rest) || subOccurs rest pat

/-- Python's substring test `pat in s`. -/
def strContains (s pat : String) : Bool := subOccurs s.data pat.data

/-- Fuel-indexed worker for `pyReplace`; the fuel (the input length) bounds
the recursion, each step consuming at least one character. -/
def listReplaceAux : Nat → List Char → List Char → List Char → List Char
  | 0, s, _, _ => s
  | _ + 1, [], _, _ => []
  | fuel + 1, c :: rest, pat, new =>
    if pat.isPrefixOf (c :: rest) then
      new ++ listReplaceAux fuel ((c :: rest).drop pat.length) pat new
    else c :: listReplaceAux fuel rest pat new

/-- Python `s.replace(pat, new)`: replace every non-overlapping occurrence
of `pat`, scanning left to right. -/
def pyReplace (s pat new : String) : String :=
  if pat.data.isEmpty then s
  else String.mk (listReplaceAux s.data.length s.data pat.data new.data)

/-- Python `s.lower()`. -/
def pyLower (s : String) : String := String.mk (s.data.map Char.toLower)

/-- Python `s.startswith(pre)`. -/
def pyStartsWith (s pre : String) : Bool := pre.data.isPrefixOf s.data

/-- The tumor test of `_organize_variants`:
`data.get("metadata", False) and
 data["metadata"].get("phenotype", "normal").lower().startswith("tumor")`. -/
def tumorPhenotype (data : Data) : Bool :=
  match data.metadata with
  | none => false
  | some m => pyStartsWith (pyLower (m.phenotype.getD "normal")) "tumor"

/-- State threaded through the nested loops of `_organize_variants`:
the function-scoped binding of the local variable `vrn_file_temp` (unbound on
entry: reading it before an assignment is an `UnboundLocalError`), the
`calls` defaultdict, the `bam_files` set (as a deduplicated list in insertion
order) and the trace of external invocations. -/
structure OrgState where
  temp : Option String := none
  calls : List (String × List (Option String)) := []
  bam_files : List String := []
  trace : List Tool := []
deriving DecidableEq, Repr

/-- Inner loop body of `_organize_variants` for one `vrn` entry of a sample.
For a tumor-phenotype sample the result file is replaced by a
suffix-tagged filtered file produced by `vcfutils.select_sample` (an external
call returning its `out_file`); deriving that file's name reads `.vcf`
membership on the path and, on the non-`.vcf` branch, the previous value of
`vrn_file_temp` — an `UnboundLocalError` when no earlier iteration assigned
it.  A `None` result file entering the tumor branch is a `TypeError`
(`".vcf" in None`). -/
def processVrn (data : Data) (st : OrgState) (vrn : CallResult) :
    Except String OrgState :=
  if tumorPhenotype data then
    match vrn.vrn_file with
    | none => Except.error "TypeError: argument of type NoneType is not iterable"
    | some vrn_file =>
      let derived : Except String String :=
        if strContains vrn_file ".vcf" then
          Except.ok (pyReplace vrn_file ".vcf" "_tumorOnly_noFilteredCalls.vcf")
        else
          match st.temp with
          | none => Except.error "UnboundLocalError: vrn_file_temp"
          | some t => Except.ok (t ++ "_tumorOnly_noFilteredCalls.vcf.gz")
      match derived with
      | Except.error e => Except.error e
      | Except.ok vrn_file_temp =>
        Except.ok { st with
          temp := some vrn_file_temp
          trace := st.trace ++ [Tool.selectSample vrn_file data.name.2 vrn_file_temp]
          calls := dictAppend st.calls vrn.variantcaller (some vrn_file_temp) }
  else
    Except.ok { st with calls := dictAppend st.calls vrn.variantcaller vrn.vrn_file }

/-- Python `bam_files.add(data["work_bam"])` guarded by the `"work_bam" in
data` test (the set is embedded as a deduplicated list). -/
def addBam (st : OrgState) (data : Data) : OrgState :=
  match data.work_bam with
  | some b =>
    if st.bam_files.contains b then st
    else { st with bam_files := st.bam_files ++ [b] }
  | none => st

/-- Outer loop body of `_organize_variants` for one sample: record its
`work_bam` into the set, then process each of its variant entries. -/
def orgData (st : OrgState) (data : Data) : Except String OrgState :=
  data.variants.foldlM (processVrn data) (addBam st data)

/-- Modelled from the spec: the output path of
`population.get_multisample_vcf` (module `bcbio.variation.population` is not
part of the sources); the merged multi-sample file is "keyed by caller name
and batch identifier". -/
def multisampleVcfPath (batch_id caller : String) : String :=
  batch_id ++ "-" ++ caller ++ "-multisample.vcf"

/-- The final loop of `_organize_variants`: one representative per entry of
`caller_names`; a single contributed file is used as-is, otherwise (zero or
several files) `population.get_multisample_vcf` is invoked. -/
def representativesGo (calls : List (String × List (Option String)))
    (batch_id : String) :
    List String → List (Option String) × List Tool
  | [] => ([], [])
  | caller :: rest =>
    let fnames := dictGet calls caller
    let (vs, tr) := representativesGo calls batch_id rest
    match fnames with
    | [f] => (f :: vs, tr)
    | _ =>
      (some (multisampleVcfPath batch_id caller) :: vs,
       Tool.multisampleVcf fnames batch_id caller :: tr)

/-- Result of `_organize_variants`: caller names, per-caller representative
files (`None` entries are Python `None` values passed through), the bam-file
list, and the trace of external invocations. -/
structure OrgResult where
  caller_names : List String
  vrn_files : List (Option String)
  bam_files : List String
  trace : List Tool
deriving DecidableEq, Repr

/-- Embeds `_organize_variants(samples, batch_id)`.  `samples[0]` on an empty batch
is an `IndexError`. -/
def _organize_variants (samples : List Data) (batch_id : String) :
    Except String OrgResult :=
  match samples with
  | [] => Except.error "IndexError: samples[0]"
  | s0 :: _ =>
    let caller_names := s0.variants.map (·.variantcaller)
    match samples.foldlM orgData ({} : OrgState) with
    | Except.error e => Except.error e
    | Except.ok st =>
      let (vrn_files, tr2) := representativesGo st.calls batch_id caller_names
      Except.ok ⟨caller_names, vrn_files, st.bam_files, st.trace ++ tr2⟩

/-! ## Consensus builder: `_run_ensemble`, `_run_ensemble_w_caller`,
`combine_calls`, `combine_calls_parallel` -/

/-- Python `os.path.join(base_dir, "{0}-ensemble.vcf".format(batch_id))`. -/
def ensembleOutVcf (base_dir batch_id : String) : String :=
  base_dir ++ "/" ++ batch_id ++ "-ensemble.vcf"

/-- Python `os.path.join(base_dir, "{0}-callregions.bed".format(batch_id))`. -/
def ensembleOutBed (base_dir batch_id : String) : String :=
  base_dir ++ "/" ++ batch_id ++ "-callregions.bed"

/-- Embeds `_run_ensemble` (merge-and-score strategy): the external
`bcbio.variation` jar is invoked only when `utils.file_exists(out_vcf_file)`
is false — the guard consults existence of the output alone, never the input
files' modification times.  Returns the `callinfo` dictionary and the trace
of external invocations.  (The post-invocation symlink fallbacks locate
intermediate artifacts and do not spawn processes.) -/
def _run_ensemble (fs : FS) (batch_id base_dir : String) :
    CallResult × List Tool :=
  let out_vcf_file := ensembleOutVcf base_dir batch_id
  let out_bed_file := ensembleOutBed base_dir batch_id
  let tr := if !file_exists fs out_vcf_file then [Tool.variantEnsemble batch_id] else []
  (⟨"ensemble", some out_vcf_file, none,
    if fs.fexists out_bed_file then some out_bed_file else none⟩, tr)

/-- Embeds `_run_ensemble_w_caller` (caller-based recall strategy): the recall tool
is invoked only when `utils.file_exists(out_vcf_file)` is false; the effects
annotation pass then runs over the result, and `bed_file` is always `None`. -/
def _run_ensemble_w_caller (fs : FS) (batch_id base_dir : String) :
    CallResult × List Tool :=
  let out_vcf_file := ensembleOutVcf base_dir batch_id
  let tr := if !file_exists fs out_vcf_file then [Tool.recallEnsemble batch_id] else []
  (⟨"ensemble", some ("effects-" ++ out_vcf_file), none, none⟩,
   tr ++ [Tool.snpeffEffects out_vcf_file])

/-- The `exist_variants` loop of `combine_calls`: scan the representative
files in order, stopping at the first one for which
`vcfutils.vcf_has_variants` holds (modelled from the spec as the `FS`
environment's `hasVariants`; the module is not part of the sources); a
`None` entry reached by the scan is an error (the helper opens the path). -/
def existVariants (fs : FS) : List (Option String) → Except String Bool
  | [] => Except.ok false
  | none :: _ => Except.error "TypeError: vcf_has_variants(None)"
  | some p :: rest =>
    if fs.hasVariants p then Except.ok true else existVariants fs rest

/-- Embeds `combine_calls(batch_id, samples, data)`: organize the per-caller files,
test whether any representative holds variants, and either run one of the two
consensus strategies (chosen by whether `"caller"` is a key of the ensemble
configuration) or synthesize an empty `{batch_id}-ensemble.vcf` with a null
bed file and no further invocation (`vcfutils.write_empty_vcf` writes the
header locally, spawning no process).  `work_dir` is `data["dirs"]["work"]`;
the validation attachment (`validate.compare_to_rm`) is outside the embedded
control flow. -/
def combine_calls (fs : FS) (batch_id : String) (samples : List Data)
    (data : Data) (work_dir : String) : Except String (CallResult × List Tool) :=
  let base_dir := work_dir ++ "/ensemble/" ++ batch_id
  match _organize_variants samples batch_id with
  | Except.error e => Except.error e
  | Except.ok org =>
    match existVariants fs org.vrn_files with
    | Except.error e => Except.error e
    | Except.ok true =>
      let (callinfo, tr2) :=
        if data.ensemble_keys.contains "caller" then
          _run_ensemble_w_caller fs batch_id base_dir
        else
          _run_ensemble fs batch_id base_dir
      Except.ok (callinfo, org.trace ++ tr2)
    | Except.ok false =>
      let out_vcf_file := ensembleOutVcf base_dir batch_id
      Except.ok (⟨"ensemble", some out_vcf_file, none, none⟩, org.trace)

/-- Python `data["variants"].insert(0, callinfo)`. -/
def insertCallinfo (callinfo : CallResult) (data : Data) : Data :=
  { data with variants := callinfo :: data.variants }

/-- One batch's step of the output-assembly loop of `combine_calls_parallel`:
run `combine_calls` on `(batch, xs, xs[0])` and prepend the resulting
`callinfo` to every member's variant list. -/
def combineBatchStep (fs : FS) (work_dir : String) (acc : List Data)
    (bxs : String × List Data) : Except String (List Data) :=
  match bxs.2 with
  | [] => Except.error "IndexError: xs[0]"
  | x0 :: _ =>
    match combine_calls fs bxs.1 bxs.2 x0 work_dir with
    | Except.error e => Except.error e
    | Except.ok (callinfo, _) =>
      Except.ok (acc ++ bxs.2.map (insertCallinfo callinfo))

/-- Embeds `combine_calls_parallel(samples, run_parallel)`: group by batches
with `_has_ensemble`, process each batch with `combineBatchStep`, and append
the non-qualifying samples unchanged after the processed ones. -/
def combine_calls_parallel (fs : FS) (work_dir : String) (samples : List Data) :
    Except String (List Data) :=
  match _group_by_batches samples _has_ensemble with
  | none => Except.error "AssertionError"
  | some (batch_groups, extras) =>
    match batch_groups.foldlM (combineBatchStep fs work_dir) [] with
    | Except.error e => Except.error e
    | Except.ok out => Except.ok (out ++ extras)

/-! ## PureCN: `_remove_overlaps` and the `file_uptodate` stage guard -/

/-- One interval record of the tab-separated input of `_remove_overlaps`:
the first three fields (`chrom`, `start`, `end`; only `end` of the pending
record and `start` of the incoming one are converted with `int(...)`) plus
the untouched remainder of the line. -/
structure Region where
  chrom : String
  start : Int
  end_ : Int
  rest : String := ""
deriving DecidableEq, Repr

/-- The `for line in in_handle` loop of `_remove_overlaps`, carrying
`prev_line` and the written output: when the pending record shares the
incoming record's chromosome and its end exceeds the incoming start, the
pending record is dropped; otherwise it is written; the incoming record
always becomes the new pending record. -/
def removeOverlapsLoop :
    Option Region → List Region → List Region → Option Region × List Region
  | prev_line, out, [] => (prev_line, out)
  | prev_line, out, line :: rest =>
    match prev_line with
    | none => removeOverlapsLoop (some line) out rest
    | some prev =>
      if prev.chrom = line.chrom ∧ prev.end_ > line.start then
        removeOverlapsLoop (some line) out rest
      else
        removeOverlapsLoop (some line) (out ++ [prev]) rest

/-- The body of `_remove_overlaps` on the parsed input lines: after the loop
the final `out_handle.write(prev_line)` is unconditional, so an empty input
leaves `prev_line = None` and the write raises (`none` here). -/
def _remove_overlaps (lines : List Region) : Option (List Region) :=
  match removeOverlapsLoop none [] lines with
  | (none, _) => none
  | (some prev, out) => some (out ++ [prev])

/-- Modelled from the spec (refinement target): the Interval Overlap
Resolver described as "a single left-to-right scan holding one pending
record; for each incoming record, if it is on the same chromosome as pending
AND pending.end > incoming.start, the pending record is dropped and replaced
by the incoming record as the new pending; otherwise the pending record is
emitted and the incoming record becomes pending.  The final pending record
is always emitted." -/
def specScan : Region → List Region → List Region
  | pending, [] => [pending]
  | pending, incoming :: rest =>
    if pending.chrom = incoming.chrom ∧ pending.end_ > incoming.start then
      specScan incoming rest
    else
      pending :: specScan incoming rest

/-- The stage guard of `_remove_overlaps` (and of `_run_purecn`,
`_segment_normalized_gatk`, `_run_purecn_dx`): the producer body runs exactly
when `utils.file_uptodate(out_file, in_file)` is false. -/
def removeOverlapsStageRuns (fs : FS) (out_file in_file : String) : Bool :=
  !file_uptodate fs out_file in_file

/-! ## Helper lemmas: grouping -/

/-- Residual accumulator of the grouping loop: the extras are exactly the
non-qualifying samples, in order, appended to the incoming accumulator. -/
theorem groupByBatchesGo_extras (check_fn : Data → Bool) (samples : List Data) :
    ∀ (bg : List (String × List Data)) (extras : List Data)
      (g : List (String × List Data)) (e : List Data),
      groupByBatchesGo check_fn samples bg extras = some (g, e) →
      e = extras ++ samples.filter (fun d => !check_fn d) := by
  induction samples with
  | nil =>
    intro bg extras g e h
    simp only [groupByBatchesGo, Option.some.injEq, Prod.mk.injEq] at h
    simp [← h.2]
  | cons data rest ih =>
    intro bg extras g e h
    simp only [groupByBatchesGo] at h
    by_cases hc : check_fn data
    · rw [if_pos hc] at h
      cases htb : truthyBatch data with
      | some b =>
        rw [htb] at h
        simpa [List.filter_cons, hc] using ih _ _ _ _ h
      | none =>
        rw [htb] at h
        by_cases hk : dictHasKey bg data.name.2
        · simp [hk] at h
        · simp only [hk, Bool.false_eq_true, if_false] at h
          simpa [List.filter_cons, hc] using ih _ _ _ _ h
    · rw [if_neg hc] at h
      have := ih _ _ _ _ h
      simp [List.filter_cons, hc, this]

/-- Appending a value satisfying `P` to a dictionary whose stored values all
satisfy `P` preserves that property. -/
theorem dictAppend_values {α : Type} (P : α → Prop) :
    ∀ (m : List (String × List α)) (key : String) (v : α),
      (∀ k vs, (k, vs) ∈ m → ∀ x ∈ vs, P x) → P v →
      ∀ k vs, (k, vs) ∈ dictAppend m key v → ∀ x ∈ vs, P x := by
  intro m
  induction m with
  | nil =>
    intro key v _ hv k vs hmem x hx
    simp only [dictAppend, List.mem_singleton, Prod.mk.injEq] at hmem
    rcases hmem with ⟨_, hvs⟩
    subst hvs
    simp only [List.mem_singleton] at hx
    subst hx; exact hv
  | cons kv rest ih =>
    intro key v hm hv k vs hmem x hx
    obtain ⟨k0, vs0⟩ := kv
    simp only [dictAppend] at hmem
    by_cases he : k0 = key
    · rw [if_pos he] at hmem
      rcases List.mem_cons.mp hmem with h1 | h2
      · rcases Prod.mk.injEq .. ▸ h1 with ⟨hk, hvs⟩
        subst hvs
        rcases List.mem_append.mp hx with hx0 | hx1
        · exact hm k0 vs0 (List.mem_cons_self _ _) x hx0
        · simp only [List.mem_singleton] at hx1
          subst hx1; exact hv
      · exact hm k vs (List.mem_cons_of_mem _ h2) x hx
    · rw [if_neg he] at hmem
      rcases List.mem_cons.mp hmem with h1 | h2
      · rcases Prod.mk.injEq .. ▸ h1 with ⟨hk, hvs⟩
        exact hm k0 vs0 (List.mem_cons_self _ _) x (hvs ▸ hx)
      · exact ih key v (fun k' vs' h' => hm k' vs' (List.mem_cons_of_mem _ h')) hv
          k vs h2 x hx

/-- Every sample stored in a group by the grouping loop qualifies, provided
the incoming accumulator's members do. -/
theorem groupByBatchesGo_members (check_fn : Data → Bool) (samples : List Data) :
    ∀ (bg : List (String × List Data)) (extras : List Data)
      (g : List (String × List Data)) (e : List Data),
      groupByBatchesGo check_fn samples bg extras = some (g, e) →
      (∀ k vs, (k, vs) ∈ bg → ∀ d ∈ vs, check_fn d = true) →
      ∀ k vs, (k, vs) ∈ g → ∀ d ∈ vs, check_fn d = true := by
  induction samples with
  | nil =>
    intro bg extras g e h hbg
    simp only [groupByBatchesGo, Option.some.injEq, Prod.mk.injEq] at h
    rw [← h.1]; exact hbg
  | cons data rest ih =>
    intro bg extras g e h hbg
    simp only [groupByBatchesGo] at h
    by_cases hc : check_fn data
    · rw [if_pos hc] at h
      cases htb : truthyBatch data with
      | some b =>
        rw [htb] at h
        exact ih _ _ _ _ h (dictAppend_values _ bg b data hbg hc)
      | none =>
        rw [htb] at h
        by_cases hk : dictHasKey bg data.name.2
        · simp [hk] at h
        · simp only [hk, Bool.false_eq_true, if_false] at h
          refine ih _ _ _ _ h ?_
          intro k vs hmem d hd
          rcases List.mem_append.mp hmem with h1 | h2
          · exact hbg k vs h1 d hd
          · simp only [List.mem_singleton, Prod.mk.injEq] at h2
            rcases h2 with ⟨_, hvs⟩
            subst hvs
            simp only [List.mem_singleton] at hd
            subst hd; exact hc
    · rw [if_neg hc] at h
      exact ih _ _ _ _ h hbg

/-- Group key a qualifying sample is filed under: its non-empty batch tag
when present, its own sample name otherwise. -/
def groupKey (data : Data) : String :=
  match truthyBatch data with
  | some b => b
  | none => data.name.2

/-- Facts of the form "`d` is stored under key `k`" persist through
`dictAppend`. -/
theorem dictAppend_mem_mono {α : Type} :
    ∀ (m : List (String × List α)) (key : String) (v : α) (k : String) (d : α),
      (∃ vs, (k, vs) ∈ m ∧ d ∈ vs) →
      ∃ vs, (k, vs) ∈ dictAppend m key v ∧ d ∈ vs := by
  intro m
  induction m with
  | nil =>
    intro key v k d ⟨vs, hmem, _⟩
    simp at hmem
  | cons kv rest ih =>
    intro key v k d ⟨vs, hmem, hd⟩
    obtain ⟨k0, vs0⟩ := kv
    simp only [dictAppend]
    by_cases he : k0 = key
    · rw [if_pos he]
      rcases List.mem_cons.mp hmem with h1 | h2
      · rcases Prod.mk.injEq .. ▸ h1 with ⟨hk, hvs⟩
        subst hk; subst hvs
        exact ⟨vs ++ [v], List.mem_cons_self _ _, List.mem_append_left _ hd⟩
      · exact ⟨vs, List.mem_cons_of_mem _ h2, hd⟩
    · rw [if_neg he]
      rcases List.mem_cons.mp hmem with h1 | h2
      · rcases Prod.mk.injEq .. ▸ h1 with ⟨hk, hvs⟩
        subst hk; subst hvs
        exact ⟨vs, List.mem_cons_self _ _, hd⟩
      · obtain ⟨vs', hmem', hd'⟩ := ih key v k d ⟨vs, h2, hd⟩
        exact ⟨vs', List.mem_cons_of_mem _ hmem', hd'⟩

/-- The value appended by `dictAppend` is stored under its key. -/
theorem dictAppend_mem_self {α : Type} :
    ∀ (m : List (String × List α)) (key : String) (v : α),
      ∃ vs, (key, vs) ∈ dictAppend m key v ∧ v ∈ vs := by
  intro m
  induction m with
  | nil =>
    intro key v
    exact ⟨[v], by simp [dictAppend], by simp⟩
  | cons kv rest ih =>
    intro key v
    obtain ⟨k0, vs0⟩ := kv
    simp only [dictAppend]
    by_cases he : k0 = key
    · rw [if_pos he]
      subst he
      exact ⟨vs0 ++ [v], List.mem_cons_self _ _, List.mem_append_right _ (by simp)⟩
    · rw [if_neg he]
      obtain ⟨vs', hmem', hv'⟩ := ih key v
      exact ⟨vs', List.mem_cons_of_mem _ hmem', hv'⟩

/-- Stored-membership facts persist through the grouping loop. -/
theorem groupByBatchesGo_mono (check_fn : Data → Bool) (samples : List Data) :
    ∀ (bg : List (String × List Data)) (extras : List Data)
      (g : List (String × List Data)) (e : List Data),
      groupByBatchesGo check_fn samples bg extras = some (g, e) →
      ∀ (k : String) (d : Data), (∃ vs, (k, vs) ∈ bg ∧ d ∈ vs) →
      ∃ vs, (k, vs) ∈ g ∧ d ∈ vs := by
  induction samples with
  | nil =>
    intro bg extras g e h k d hd
    simp only [groupByBatchesGo, Option.some.injEq, Prod.mk.injEq] at h
    rw [← h.1]; exact hd
  | cons data rest ih =>
    intro bg extras g e h k d hd
    simp only [groupByBatchesGo] at h
    by_cases hc : check_fn data
    · rw [if_pos hc] at h
      cases htb : truthyBatch data with
      | some b =>
        rw [htb] at h
        exact ih _ _ _ _ h k d (dictAppend_mem_mono bg b data k d hd)
      | none =>
        rw [htb] at h
        by_cases hk : dictHasKey bg data.name.2
        · simp [hk] at h
        · simp only [hk, Bool.false_eq_true, if_false] at h
          obtain ⟨vs, hmem, hdm⟩ := hd
          exact ih _ _ _ _ h k d ⟨vs, List.mem_append_left _ hmem, hdm⟩
    · rw [if_neg hc] at h
      exact ih _ _ _ _ h k d hd

/-- Every qualifying sample processed by the grouping loop ends up stored
under its group key. -/
theorem groupByBatchesGo_mem (check_fn : Data → Bool) (samples : List Data) :
    ∀ (bg : List (String × List Data)) (extras : List Data)
      (g : List (String × List Data)) (e : List Data),
      groupByBatchesGo check_fn samples bg extras = some (g, e) →
      ∀ d ∈ samples, check_fn d = true →
      ∃ vs, (groupKey d, vs) ∈ g ∧ d ∈ vs := by
  induction samples with
  | nil =>
    intro bg extras g e h d hd
    simp at hd
  | cons data rest ih =>
    intro bg extras g e h d hd hc
    simp only [groupByBatchesGo] at h
    rcases List.mem_cons.mp hd with hd0 | hdr
    · subst hd0
      rw [if_pos hc] at h
      cases htb : truthyBatch d with
      | some b =>
        rw [htb] at h
        have hkey : groupKey d = b := by simp [groupKey, htb]
        rw [hkey]
        exact groupByBatchesGo_mono check_fn rest _ _ _ _ h b d
          (dictAppend_mem_self bg b d)
      | none =>
        rw [htb] at h
        by_cases hk : dictHasKey bg d.name.2
        · simp [hk] at h
        · simp only [hk, Bool.false_eq_true, if_false] at h
          have hkey : groupKey d = d.name.2 := by simp [groupKey, htb]
          rw [hkey]
          exact groupByBatchesGo_mono check_fn rest _ _ _ _ h d.name.2 d
            ⟨[d], List.mem_append_right _ (by simp), by simp⟩
    · by_cases hc0 : check_fn data
      · rw [if_pos hc0] at h
        cases htb : truthyBatch data with
        | some b =>
          rw [htb] at h
          exact ih _ _ _ _ h d hdr hc
        | none =>
          rw [htb] at h
          by_cases hk : dictHasKey bg data.name.2
          · simp [hk] at h
          · simp only [hk, Bool.false_eq_true, if_false] at h
            exact ih _ _ _ _ h d hdr hc
      · rw [if_neg hc0] at h
        exact ih _ _ _ _ h d hdr hc

/-! ## Concrete fixtures -/

/-- Two call results from callers "a" and "b", both with result files. -/
def twoCallers : List CallResult :=
  [{ variantcaller := "a", vrn_file := some "f1" },
   { variantcaller := "b", vrn_file := some "f2" }]

/-- Qualifying sample A, tagged batch "fam1". -/
def sampleA : Data :=
  { name := ("0", "A"), metadata := some { batch := some "fam1" },
    variants := twoCallers, algorithm_keys := ["ensemble"] }

/-- Qualifying sample B, tagged batch "fam1". -/
def sampleB : Data := { sampleA with name := ("0", "B") }

/-- Qualifying untagged sample C. -/
def sampleC : Data :=
  { name := ("0", "C"), variants := twoCallers, algorithm_keys := ["ensemble"] }

/-- Qualifying untagged sample whose own name "fam1" collides with the
explicit batch tag of `sampleA`. -/
def sampleUntaggedFam1 : Data :=
  { name := ("0", "fam1"), variants := twoCallers, algorithm_keys := ["ensemble"] }

/-- Non-qualifying sample: only one call result. -/
def sampleNoEnsemble : Data :=
  { name := ("0", "X"),
    variants := [{ variantcaller := "a", vrn_file := some "f1" }],
    algorithm_keys := ["ensemble"] }

/-- Filesystem in which no path exists and no file has variants. -/
def fsAllAbsent : FS := ⟨fun _ => false, fun _ => 0, fun _ => false⟩

/-! ## C5: batch grouper mapping -/

/-- C5: the Batch Grouper files every qualifying sample carrying a batch tag
into the group for that tag and every qualifying untagged sample into a
group keyed by its own name; concretely, samples A and B tagged "fam1"
together with untagged C, all qualifying, group as
{"fam1": [A, B], "C": [C]} with an empty residual list. -/
theorem group_by_batches_tagged_and_singleton :
    (∀ (samples : List Data) (check_fn : Data → Bool)
       (g : List (String × List Data)) (e : List Data) (d : Data),
       _group_by_batches samples check_fn = some (g, e) →
       d ∈ samples → check_fn d = true →
       (∀ b, truthyBatch d = some b → ∃ vs, (b, vs) ∈ g ∧ d ∈ vs) ∧
       (truthyBatch d = none → ∃ vs, (d.name.2, vs) ∈ g ∧ d ∈ vs)) ∧
    _group_by_batches [sampleA, sampleB, sampleC] (fun _ => true) =
      some ([("fam1", [sampleA, sampleB]), ("C", [sampleC])], []) := by
  constructor
  · intro samples check_fn g e d h hd hc
    have hmem := groupByBatchesGo_mem check_fn samples [] [] g e h d hd hc
    constructor
    · intro b hb
      have hk : groupKey d = b := by simp [groupKey, hb]
      rwa [hk] at hmem
    · intro hb
      have hk : groupKey d = d.name.2 := by simp [groupKey, hb]
      rwa [hk] at hmem
  · rfl

/-- Witness for C5's universally quantified part: sample A of the concrete
collection is stored in the "fam1" group. -/
theorem group_by_batches_tagged_and_singleton_witness :
    ∃ vs, ("fam1", vs) ∈ [("fam1", [sampleA, sampleB]), ("C", [sampleC])] ∧
      sampleA ∈ vs :=
  ((group_by_batches_tagged_and_singleton.1
      [sampleA, sampleB, sampleC] (fun _ => true)
      [("fam1", [sampleA, sampleB]), ("C", [sampleC])] [] sampleA
      group_by_batches_tagged_and_singleton.2
      (by simp) rfl).1 "fam1" rfl)

/-! ## C6: identity collision between batch name and singleton key -/

/-- C6 (amended): the collision between an explicit batch name and an
untagged sample's own name is detected — fatally, as an assertion failure —
only when the untagged sample is processed while its name is already a group
key; with the tagged sample first, grouping aborts. -/
theorem group_by_batches_collision_tagged_first
    (A C : Data) (check_fn : Data → Bool) (b : String)
    (hA : check_fn A = true) (hC : check_fn C = true)
    (htA : truthyBatch A = some b) (htC : truthyBatch C = none)
    (hk : C.name.2 = b) :
    _group_by_batches [A, C] check_fn = none := by
  simp [_group_by_batches, groupByBatchesGo, hA, hC, htA, htC, dictAppend,
    dictHasKey, hk]

/-- Witness for C6's amended theorem at the concrete samples. -/
theorem group_by_batches_collision_tagged_first_witness :
    _group_by_batches [sampleA, sampleUntaggedFam1] (fun _ => true) = none :=
  group_by_batches_collision_tagged_first sampleA sampleUntaggedFam1
    (fun _ => true) "fam1" rfl rfl rfl rfl rfl

/-- Counterexample to C6 as stated: with the untagged sample (own name
"fam1") processed first and the explicitly tagged sample second, the same
collision passes undetected — grouping succeeds and silently merges the two
samples into one group instead of aborting. -/
theorem group_by_batches_collision_untagged_first_no_abort :
    truthyBatch sampleUntaggedFam1 = none ∧
    truthyBatch sampleA = some "fam1" ∧
    sampleUntaggedFam1.name.2 = "fam1" ∧
    _group_by_batches [sampleUntaggedFam1, sampleA] (fun _ => true) =
      some ([("fam1", [sampleUntaggedFam1, sampleA])], []) :=
  ⟨rfl, rfl, rfl, rfl⟩

/-! ## C7: pass-through of non-qualifying samples -/

/-- C7: samples failing the eligibility predicate are never placed into any
batch group; the parallel combine step returns them unchanged — no field
modified, no ensemble result inserted — after the processed batch members,
preserving their relative order. -/
theorem combine_calls_parallel_passthrough
    (fs : FS) (work_dir : String) (samples : List Data) (out : List Data)
    (h : combine_calls_parallel fs work_dir samples = Except.ok out) :
    (∃ processed, out = processed ++ samples.filter (fun d => !_has_ensemble d)) ∧
    ∀ g e, _group_by_batches samples _has_ensemble = some (g, e) →
      e = samples.filter (fun d => !_has_ensemble d) ∧
      ∀ k vs, (k, vs) ∈ g → ∀ d ∈ vs, _has_ensemble d = true := by
  unfold combine_calls_parallel at h
  cases hg : _group_by_batches samples _has_ensemble with
  | none => rw [hg] at h; exact absurd h (by simp)
  | some pe =>
    obtain ⟨g, e⟩ := pe
    rw [hg] at h
    dsimp only at h
    have he : e = samples.filter (fun d => !_has_ensemble d) :=
      groupByBatchesGo_extras _has_ensemble samples [] [] g e hg
    refine ⟨?_, ?_⟩
    · cases hf : List.foldlM (combineBatchStep fs work_dir) [] g with
      | error err => rw [hf] at h; exact absurd h (by simp)
      | ok o =>
        rw [hf] at h
        simp only [Except.ok.injEq] at h
        exact ⟨o, by rw [← h, he]⟩
    · intro g' e' hg'
      simp only [Option.some.injEq, Prod.mk.injEq] at hg'
      obtain ⟨hg1, hg2⟩ := hg'
      subst hg1; subst hg2
      exact ⟨he, groupByBatchesGo_members _has_ensemble samples [] [] _ _ hg
        (by intro k vs hmem; simp at hmem)⟩

/-- Witness for C7 at a concrete run: a single non-qualifying sample passes
through the parallel combine step unchanged. -/
theorem combine_calls_parallel_passthrough_witness :
    (∃ processed, [sampleNoEnsemble] =
      processed ++ [sampleNoEnsemble].filter (fun d => !_has_ensemble d)) ∧
    ∀ g e, _group_by_batches [sampleNoEnsemble] _has_ensemble = some (g, e) →
      e = [sampleNoEnsemble].filter (fun d => !_has_ensemble d) ∧
      ∀ k vs, (k, vs) ∈ g → ∀ d ∈ vs, _has_ensemble d = true :=
  combine_calls_parallel_passthrough fsAllAbsent "work" [sampleNoEnsemble]
    [sampleNoEnsemble] rfl

/-! ## C10: the eligibility predicate -/

/-- C10: a sample qualifies for ensemble batching exactly when it carries
strictly more than one call result, at least one of them with a non-null
result or batch file, and has "ensemble" configured; a sample with at most
one call result never qualifies and is always routed to the residual list,
never into any batch group. -/
theorem has_ensemble_qualification (d : Data) :
    (_has_ensemble d = true ↔
      1 < d.variants.length ∧
      (∃ v ∈ d.variants, v.vrn_file ≠ none ∨ v.vrn_file_batch ≠ none) ∧
      "ensemble" ∈ d.algorithm_keys) ∧
    (d.variants.length ≤ 1 →
      _has_ensemble d = false ∧
      ∀ samples g e, _group_by_batches samples _has_ensemble = some (g, e) →
        d ∈ samples →
        d ∈ e ∧ ∀ k vs, (k, vs) ∈ g → d ∉ vs) := by
  have hiff : _has_ensemble d = true ↔
      1 < d.variants.length ∧
      (∃ v ∈ d.variants, v.vrn_file ≠ none ∨ v.vrn_file_batch ≠ none) ∧
      "ensemble" ∈ d.algorithm_keys := by
    simp [_has_ensemble, List.any_eq_true, Option.isSome_iff_ne_none,
      and_assoc]
  refine ⟨hiff, ?_⟩
  intro hle
  have hfalse : _has_ensemble d = false := by
    cases hh : _has_ensemble d with
    | false => rfl
    | true => exact absurd (hiff.mp hh).1 (by omega)
  refine ⟨hfalse, ?_⟩
  intro samples g e hg hd
  constructor
  · have he := groupByBatchesGo_extras _has_ensemble samples [] [] g e hg
    rw [he, List.nil_append, List.mem_filter]
    exact ⟨hd, by simp [hfalse]⟩
  · intro k vs hmem hdvs
    have := groupByBatchesGo_members _has_ensemble samples [] [] g e hg
      (by intro k' vs' h'; simp at h') k vs hmem d hdvs
    rw [hfalse] at this
    exact Bool.false_ne_true this

/-- Witness for C10 at a concrete sample with a single call result. -/
theorem has_ensemble_qualification_witness :
    _has_ensemble sampleNoEnsemble = false ∧
    (sampleNoEnsemble ∈ ([sampleNoEnsemble] : List Data) ∧
     ∀ k vs, (k, vs) ∈ ([] : List (String × List Data)) →
       sampleNoEnsemble ∉ vs) :=
  ⟨((has_ensemble_qualification sampleNoEnsemble).2 (by decide)).1,
   ((has_ensemble_qualification sampleNoEnsemble).2 (by decide)).2
     [sampleNoEnsemble] [] [sampleNoEnsemble] rfl (by simp)⟩

/-! ## C4 and C8: the interval overlap resolver -/

/-- Starting from a pending record, the scan loop always finishes with a
pending record. -/
theorem removeOverlapsLoop_some (l : List Region) :
    ∀ (p : Region) (out : List Region),
      ∃ q out', removeOverlapsLoop (some p) out l = (some q, out') := by
  induction l with
  | nil => intro p out; exact ⟨p, out, rfl⟩
  | cons line rest ih =>
    intro p out
    simp only [removeOverlapsLoop]
    by_cases h : p.chrom = line.chrom ∧ p.end_ > line.start
    · rw [if_pos h]; exact ih line out
    · rw [if_neg h]; exact ih line (out ++ [p])

/-- The imperative loop agrees with the specification's functional pending
scan: written output followed by the final pending record is exactly the
scan's emission sequence. -/
theorem removeOverlapsLoop_spec (l : List Region) :
    ∀ (p : Region) (out : List Region),
      (removeOverlapsLoop (some p) out l).2 ++
        ((removeOverlapsLoop (some p) out l).1).toList = out ++ specScan p l := by
  induction l with
  | nil => intro p out; simp [removeOverlapsLoop, specScan]
  | cons line rest ih =>
    intro p out
    simp only [removeOverlapsLoop, specScan]
    by_cases h : p.chrom = line.chrom ∧ p.end_ > line.start
    · rw [if_pos h, if_pos h]; exact ih line out
    · rw [if_neg h, if_neg h]
      rw [ih line (out ++ [p])]
      simp

/-- With no pending record yet, the first incoming record becomes pending. -/
theorem removeOverlapsLoop_none (out : List Region) (line : Region)
    (rest : List Region) :
    removeOverlapsLoop none out (line :: rest) =
      removeOverlapsLoop (some line) out rest := rfl

/-- C4: on every non-empty input the overlap remover implements the
specified single pending-record scan — a same-chromosome incoming record
whose start is below the pending end displaces the pending record without
emission, any other incoming record causes the pending record to be emitted,
and the final pending record is always emitted; on the concrete input
[(chr1,100,200), (chr1,150,300), (chr1,300,400)] the output is
[(chr1,150,300), (chr1,300,400)]. -/
theorem remove_overlaps_matches_spec_scan :
    (∀ (x : Region) (xs : List Region),
      _remove_overlaps (x :: xs) = some (specScan x xs)) ∧
    _remove_overlaps
      [⟨"chr1", 100, 200, ""⟩, ⟨"chr1", 150, 300, ""⟩, ⟨"chr1", 300, 400, ""⟩] =
      some [⟨"chr1", 150, 300, ""⟩, ⟨"chr1", 300, 400, ""⟩] := by
  constructor
  · intro x xs
    obtain ⟨q, out', heq⟩ := removeOverlapsLoop_some xs x []
    have h2 := removeOverlapsLoop_spec xs x []
    rw [heq] at h2
    simp only [Option.toList_some, List.nil_append] at h2
    unfold _remove_overlaps
    rw [removeOverlapsLoop_none, heq]
    simp [← h2]
  · rfl

/-- Witness for C4's universally quantified part at a one-record input. -/
theorem remove_overlaps_matches_spec_scan_witness :
    _remove_overlaps [⟨"chr2", 5, 10, "r"⟩] =
      some (specScan ⟨"chr2", 5, 10, "r"⟩ []) :=
  remove_overlaps_matches_spec_scan.1 ⟨"chr2", 5, 10, "r"⟩ []

/-- C8: on an empty input sequence the resolver reaches the final
unconditional write with no pending record held and fails instead of
completing; in particular it never produces an empty output file. -/
theorem remove_overlaps_empty_input_fails :
    _remove_overlaps [] = none ∧ _remove_overlaps [] ≠ some [] :=
  ⟨rfl, by decide⟩

/-! ## C1: stage-skip guards -/

/-- Filesystem in which the ensemble output VCF for batch "b1" under
directory "base" exists with modification time 0 while every other path —
in particular the per-caller input file "caller1.vcf" — is absent from the
output's point of view but carries the newer modification time 5. -/
def fsStaleOut : FS :=
  ⟨fun p => p == ensembleOutVcf "base" "b1",
   fun p => if p == ensembleOutVcf "base" "b1" then 0 else 5,
   fun _ => true⟩

/-- Counterexample to C1 as stated: the ensemble consensus stage's guard
consults only the existence of the output VCF, so with an existing output
that is strictly older than a per-caller input (which is therefore not
up-to-date) the producer is still skipped — the invocation trace is empty —
instead of being re-invoked. -/
theorem run_ensemble_skips_despite_newer_input :
    file_exists fsStaleOut (ensembleOutVcf "base" "b1") = true ∧
    fsStaleOut.mtime "caller1.vcf" > fsStaleOut.mtime (ensembleOutVcf "base" "b1") ∧
    file_uptodate fsStaleOut (ensembleOutVcf "base" "b1") "caller1.vcf" = false ∧
    (_run_ensemble fsStaleOut "b1" "base").2 = [] := by
  refine ⟨rfl, by decide, by decide, ?_⟩
  simp [_run_ensemble, file_exists, fsStaleOut]

/-- C1 (amended): the PureCN stages guarded by `file_uptodate` skip their
producer exactly when the output exists and is not older than the declared
input, but the two ensemble consensus strategies skip their producer exactly
when the output VCF exists — the inputs' modification times are never
consulted there. -/
theorem stage_skip_guards (fs : FS) (out_file in_file batch_id base_dir : String) :
    (removeOverlapsStageRuns fs out_file in_file = false ↔
      file_exists fs out_file = true ∧ file_exists fs in_file = true ∧
      fs.mtime out_file ≥ fs.mtime in_file) ∧
    ((_run_ensemble fs batch_id base_dir).2 = [] ↔
      file_exists fs (ensembleOutVcf base_dir batch_id) = true) ∧
    (Tool.recallEnsemble batch_id ∉ (_run_ensemble_w_caller fs batch_id base_dir).2 ↔
      file_exists fs (ensembleOutVcf base_dir batch_id) = true) := by
  refine ⟨?_, ?_, ?_⟩
  · simp [removeOverlapsStageRuns, file_uptodate, and_assoc]
  · cases h : file_exists fs (ensembleOutVcf base_dir batch_id) <;>
      simp [_run_ensemble, h]
  · cases h : file_exists fs (ensembleOutVcf base_dir batch_id) <;>
      simp [_run_ensemble_w_caller, h]

/-- Witness for C1's amended theorem: on the stale filesystem the ensemble
stage's trace is indeed empty because the output exists. -/
theorem stage_skip_guards_witness :
    (_run_ensemble fsStaleOut "b1" "base").2 = [] :=
  (stage_skip_guards fsStaleOut (ensembleOutVcf "base" "b1") "caller1.vcf"
    "b1" "base").2.1.mpr rfl

/-! ## Helper lemmas: the calls dictionary and the representatives loop -/

/-- Lookup after a `dictAppend`: the appended value lands at the end of its
key's list and leaves other keys unchanged. -/
theorem dictGet_dictAppend {α : Type} (m : List (String × List α))
    (key k : String) (v : α) :
    dictGet (dictAppend m key v) k =
      if k = key then dictGet m k ++ [v] else dictGet m k := by
  induction m with
  | nil =>
    by_cases h : k = key
    · subst h; simp [dictAppend, dictGet]
    · have h2 : ¬key = k := fun hh => h hh.symm
      simp [dictAppend, dictGet, h, h2]
  | cons kv rest ih =>
    obtain ⟨k0, vs0⟩ := kv
    simp only [dictAppend]
    by_cases h0 : k0 = key
    · rw [if_pos h0]
      by_cases h1 : k0 = k
      · subst h1
        simp [dictGet, h0]
      · have h2 : ¬k = key := fun hh => h1 (h0.trans hh.symm)
        simp [dictGet, h1, h2]
    · rw [if_neg h0]
      by_cases h1 : k0 = k
      · subst h1
        have h2 : ¬k0 = key := h0
        simp [dictGet, h2]
      · simp [dictGet, h1, ih]

/-- Files contributed per caller across the batch by non-tumor samples:
each sample's variant entries filtered to the caller, in traversal order. -/
def contribFiles (samples : List Data) (caller : String) : List (Option String) :=
  ((samples.map Data.variants).flatten).filterMap
    (fun v => if v.variantcaller = caller then some v.vrn_file else none)

/-- Representative chosen by the final loop of `_organize_variants` from a
caller's contributed files: a unique contribution is used as-is, anything
else goes through the multi-sample merge output. -/
def reprFile (fnames : List (Option String)) (batch_id caller : String) :
    Option String :=
  match fnames with
  | [f] => f
  | _ => some (multisampleVcfPath batch_id caller)

/-- The representatives loop returns, per caller name, the representative
of the files stored under that name in the calls dictionary. -/
theorem representativesGo_fst (calls : List (String × List (Option String)))
    (batch_id : String) (names : List String) :
    (representativesGo calls batch_id names).1 =
      names.map (fun c => reprFile (dictGet calls c) batch_id c) := by
  induction names with
  | nil => rfl
  | cons c rest ih =>
    simp only [representativesGo, List.map_cons, ← ih]
    cases hf : dictGet calls c with
    | nil => simp [reprFile]
    | cons f t => cases t <;> simp [reprFile]

/-- Nested accumulation of the `calls` dictionary performed by the sample
loop when no sample is tumor-tagged. -/
def callsFold (samples : List Data)
    (m : List (String × List (Option String))) :
    List (String × List (Option String)) :=
  samples.foldl (fun acc d =>
    d.variants.foldl (fun a v => dictAppend a v.variantcaller v.vrn_file) acc) m

/-- On a non-tumor sample the inner loop body only appends the raw result
file to the calls dictionary. -/
theorem processVrn_nontumor (data : Data) (st : OrgState) (vrn : CallResult)
    (h : tumorPhenotype data = false) :
    processVrn data st vrn =
      Except.ok
        { st with calls := dictAppend st.calls vrn.variantcaller vrn.vrn_file } := by
  simp [processVrn, h]

/-- On a non-tumor sample the variant loop is a pure fold over the calls
dictionary. -/
theorem foldlM_processVrn_nontumor (data : Data)
    (h : tumorPhenotype data = false) :
    ∀ (l : List CallResult) (st : OrgState),
      l.foldlM (processVrn data) st =
        Except.ok { st with
          calls := l.foldl (fun a v => dictAppend a v.variantcaller v.vrn_file)
            st.calls } := by
  intro l
  induction l with
  | nil => intro st; rfl
  | cons v rest ih =>
    intro st
    rw [List.foldlM_cons, processVrn_nontumor data st v h]
    simp only [List.foldl_cons]
    have hbind : (Except.ok (ε := String)
        { st with calls := dictAppend st.calls v.variantcaller v.vrn_file } >>=
        rest.foldlM (processVrn data)) =
        rest.foldlM (processVrn data)
          { st with calls := dictAppend st.calls v.variantcaller v.vrn_file } := rfl
    rw [hbind, ih]

/-- On a batch with no tumor-tagged sample the whole sample loop succeeds,
building exactly the nested calls fold; the temp binding and the trace are
untouched. -/
theorem foldlM_orgData_nontumor :
    ∀ (samples : List Data) (st : OrgState),
      (∀ d ∈ samples, tumorPhenotype d = false) →
      ∃ bams, samples.foldlM orgData st =
        Except.ok { temp := st.temp, calls := callsFold samples st.calls,
                    bam_files := bams, trace := st.trace } := by
  intro samples
  induction samples with
  | nil =>
    intro st _
    exact ⟨st.bam_files, rfl⟩
  | cons d rest ih =>
    intro st hnt
    have hd : tumorPhenotype d = false := hnt d (List.mem_cons_self _ _)
    have hA : (addBam st d).temp = st.temp ∧ (addBam st d).calls = st.calls ∧
        (addBam st d).trace = st.trace := by
      unfold addBam
      cases d.work_bam with
      | none => exact ⟨rfl, rfl, rfl⟩
      | some b =>
        dsimp only
        by_cases hb : st.bam_files.contains b
        · rw [if_pos hb]; exact ⟨rfl, rfl, rfl⟩
        · rw [if_neg hb]; exact ⟨rfl, rfl, rfl⟩
    obtain ⟨hA1, hA2, hA3⟩ := hA
    have horg : orgData st d = Except.ok
        { temp := st.temp,
          calls := d.variants.foldl
            (fun a v => dictAppend a v.variantcaller v.vrn_file) st.calls,
          bam_files := (addBam st d).bam_files, trace := st.trace } := by
      unfold orgData
      rw [foldlM_processVrn_nontumor d hd]
      rw [show ({ addBam st d with
            calls := d.variants.foldl
              (fun a v => dictAppend a v.variantcaller v.vrn_file)
              (addBam st d).calls } : OrgState) =
          { temp := (addBam st d).temp,
            calls := d.variants.foldl
              (fun a v => dictAppend a v.variantcaller v.vrn_file)
              (addBam st d).calls,
            bam_files := (addBam st d).bam_files,
            trace := (addBam st d).trace } from rfl]
      rw [hA1, hA2, hA3]
    obtain ⟨bams, hrest⟩ := ih
      { temp := st.temp,
        calls := d.variants.foldl
          (fun a v => dictAppend a v.variantcaller v.vrn_file) st.calls,
        bam_files := (addBam st d).bam_files, trace := st.trace }
      (fun x hx => hnt x (List.mem_cons_of_mem _ hx))
    refine ⟨bams, ?_⟩
    rw [List.foldlM_cons, horg]
    have hbind : (Except.ok (ε := String)
        { temp := st.temp,
          calls := d.variants.foldl
            (fun a v => dictAppend a v.variantcaller v.vrn_file) st.calls,
          bam_files := (addBam st d).bam_files, trace := st.trace } >>=
        rest.foldlM orgData) =
        rest.foldlM orgData
          { temp := st.temp,
            calls := d.variants.foldl
              (fun a v => dictAppend a v.variantcaller v.vrn_file) st.calls,
            bam_files := (addBam st d).bam_files, trace := st.trace } := rfl
    rw [hbind, hrest]
    rfl

/-- Lookup in the fold of one sample's variant list. -/
theorem dictGet_foldl_vrns (c : String) :
    ∀ (l : List CallResult) (m : List (String × List (Option String))),
      dictGet (l.foldl (fun a v => dictAppend a v.variantcaller v.vrn_file) m) c =
        dictGet m c ++
          l.filterMap
            (fun v => if v.variantcaller = c then some v.vrn_file else none) := by
  intro l
  induction l with
  | nil => intro m; simp
  | cons v rest ih =>
    intro m
    rw [List.foldl_cons, ih, dictGet_dictAppend]
    by_cases h : c = v.variantcaller
    · rw [if_pos h]
      have h2 : v.variantcaller = c := h.symm
      simp [h2]
    · rw [if_neg h]
      have h2 : ¬v.variantcaller = c := fun hh => h hh.symm
      simp [h2]

/-- Lookup in the nested calls fold: the stored files under a caller are the
incoming entry followed by the batch-wide contributed files. -/
theorem dictGet_callsFold (c : String) :
    ∀ (samples : List Data) (m : List (String × List (Option String))),
      dictGet (callsFold samples m) c = dictGet m c ++ contribFiles samples c := by
  intro samples
  induction samples with
  | nil => intro m; simp [callsFold, contribFiles]
  | cons d rest ih =>
    intro m
    have hstep : callsFold (d :: rest) m =
        callsFold rest
          (d.variants.foldl (fun a v => dictAppend a v.variantcaller v.vrn_file) m) :=
      rfl
    rw [hstep, ih, dictGet_foldl_vrns]
    have hcontrib : contribFiles (d :: rest) c =
        d.variants.filterMap
          (fun v => if v.variantcaller = c then some v.vrn_file else none) ++
        contribFiles rest c := by
      simp [contribFiles]
    rw [hcontrib, List.append_assoc]

/-- Projection lemma: the bam-file update never touches the `vrn_file_temp`
binding. -/
theorem addBam_temp (st : OrgState) (d : Data) : (addBam st d).temp = st.temp := by
  unfold addBam
  cases d.work_bam with
  | none => rfl
  | some b =>
    dsimp only
    by_cases hb : st.bam_files.contains b
    · rw [if_pos hb]
    · rw [if_neg hb]

/-- The organize pipeline on a batch whose head sample exists and which has
no tumor-tagged member: caller names come from the head sample, and the
representatives loop runs over the accumulated calls dictionary. -/
theorem organize_variants_nontumor_eq (s0 : Data) (rest : List Data)
    (batch_id : String) (hnt : ∀ d ∈ s0 :: rest, tumorPhenotype d = false) :
    ∃ bams, _organize_variants (s0 :: rest) batch_id =
      Except.ok ⟨s0.variants.map (·.variantcaller),
        (representativesGo (callsFold (s0 :: rest) []) batch_id
          (s0.variants.map (·.variantcaller))).1,
        bams,
        (representativesGo (callsFold (s0 :: rest) []) batch_id
          (s0.variants.map (·.variantcaller))).2⟩ := by
  obtain ⟨bams, hfold⟩ := foldlM_orgData_nontumor (s0 :: rest) {} hnt
  refine ⟨bams, ?_⟩
  unfold _organize_variants
  rw [hfold]
  rfl

/-! ## C3: representatives come from the first sample's caller list -/

/-- Batch sample contributing only caller "a". -/
def orgS1 : Data :=
  { name := ("0", "s1"),
    variants := [{ variantcaller := "a", vrn_file := some "fa1" }],
    algorithm_keys := ["ensemble"] }

/-- Batch sample contributing callers "a" and "b". -/
def orgS2 : Data :=
  { name := ("0", "s2"),
    variants := [{ variantcaller := "a", vrn_file := some "fa2" },
                 { variantcaller := "b", vrn_file := some "fb" }],
    algorithm_keys := ["ensemble"] }

/-- Counterexample to C3 as stated: caller "b" is present across the batch
(second sample) and contributes exactly one file, yet the merger emits no
representative for it — caller names are read from the first sample only, so
the output has a single representative for "a" alone. -/
theorem organize_variants_omits_second_sample_caller :
    _organize_variants [orgS1, orgS2] "b1" =
      Except.ok ⟨["a"], [some "b1-a-multisample.vcf"], [],
        [Tool.multisampleVcf [some "fa1", some "fa2"] "b1" "a"]⟩ ∧
    contribFiles [orgS1, orgS2] "b" = [some "fb"] ∧
    "b" ∉ (["a"] : List String) :=
  ⟨rfl, rfl, by decide⟩

/-- C3 (amended): on a batch with no tumor-tagged sample the merger emits
exactly one representative per caller-name entry of the FIRST sample's
CallResult list, in that order — the file itself when the caller contributes
exactly one file batch-wide, the multi-sample merge output otherwise; a
caller contributing zero files never occurs in the first sample's list and
so is omitted, as is any caller appearing only in later samples. -/
theorem organize_variants_first_sample_representatives (s0 : Data)
    (rest : List Data) (batch_id : String)
    (hnt : ∀ d ∈ s0 :: rest, tumorPhenotype d = false) :
    (∃ bams tr, _organize_variants (s0 :: rest) batch_id =
      Except.ok ⟨s0.variants.map (·.variantcaller),
        (s0.variants.map (·.variantcaller)).map
          (fun c => reprFile (contribFiles (s0 :: rest) c) batch_id c),
        bams, tr⟩) ∧
    ∀ c, contribFiles (s0 :: rest) c = [] →
      c ∉ s0.variants.map (·.variantcaller) := by
  constructor
  · obtain ⟨bams, heq⟩ := organize_variants_nontumor_eq s0 rest batch_id hnt
    have h1 : (representativesGo (callsFold (s0 :: rest) []) batch_id
        (s0.variants.map (·.variantcaller))).1 =
        (s0.variants.map (·.variantcaller)).map
          (fun c => reprFile (contribFiles (s0 :: rest) c) batch_id c) := by
      rw [representativesGo_fst]
      apply List.map_congr_left
      intro c _
      rw [dictGet_callsFold]
      rfl
    exact ⟨bams, _, by rw [heq, h1]⟩
  · intro c hc hmem
    rw [List.mem_map] at hmem
    obtain ⟨v, hv, hvc⟩ := hmem
    have hin : v.vrn_file ∈ contribFiles (s0 :: rest) c := by
      unfold contribFiles
      rw [List.mem_filterMap]
      refine ⟨v, ?_, ?_⟩
      · simp only [List.map_cons, List.flatten_cons]
        exact List.mem_append_left _ hv
      · rw [if_pos hvc]
    rw [hc] at hin
    exact List.not_mem_nil _ hin

/-- Witness for C3's amended theorem on a one-sample batch. -/
theorem organize_variants_first_sample_representatives_witness :
    (∃ bams tr, _organize_variants [sampleC] "bw" =
      Except.ok ⟨sampleC.variants.map (·.variantcaller),
        (sampleC.variants.map (·.variantcaller)).map
          (fun c => reprFile (contribFiles [sampleC] c) "bw" c),
        bams, tr⟩) ∧
    ∀ c, contribFiles [sampleC] c = [] →
      c ∉ sampleC.variants.map (·.variantcaller) :=
  organize_variants_first_sample_representatives sampleC [] "bw" (by decide)

/-! ## C9: the tumor-only filtering branch -/

/-- C9 (amended): for a tumor-phenotype sample whose record's file path does
not contain ".vcf", the name-derivation branch reads `vrn_file_temp`; when
no earlier iteration of the same call has assigned it, this is an unbound
read and the step fails — in particular `_organize_variants` fails when such
a record comes first — but when an earlier iteration left a binding, the
stale name is reused with the gzip suffix appended and a substitute file is
produced after all. -/
theorem tumor_nonvcf_unbound_temp (data : Data) (st : OrgState)
    (vrn : CallResult) (p : String)
    (ht : tumorPhenotype data = true) (hf : vrn.vrn_file = some p)
    (hnv : strContains p ".vcf" = false) :
    (st.temp = none →
      processVrn data st vrn = Except.error "UnboundLocalError: vrn_file_temp") ∧
    (∀ t, st.temp = some t →
      processVrn data st vrn = Except.ok { st with
        temp := some (t ++ "_tumorOnly_noFilteredCalls.vcf.gz"),
        trace := st.trace ++ [Tool.selectSample p data.name.2
          (t ++ "_tumorOnly_noFilteredCalls.vcf.gz")],
        calls := dictAppend st.calls vrn.variantcaller
          (some (t ++ "_tumorOnly_noFilteredCalls.vcf.gz")) }) ∧
    (∀ (rest : List Data) (vs : List CallResult) (batch_id : String),
      data.variants = vrn :: vs →
      _organize_variants (data :: rest) batch_id =
        Except.error "UnboundLocalError: vrn_file_temp") := by
  have herr : ∀ (st' : OrgState), st'.temp = none →
      processVrn data st' vrn = Except.error "UnboundLocalError: vrn_file_temp" := by
    intro st' h
    simp [processVrn, ht, hf, hnv, h]
  refine ⟨herr st, ?_, ?_⟩
  · intro t h
    simp [processVrn, ht, hf, hnv, h]
  · intro rest vs batch_id hvar
    have hfold : (data :: rest).foldlM orgData ({} : OrgState) =
        Except.error "UnboundLocalError: vrn_file_temp" := by
      rw [List.foldlM_cons]
      have horg : orgData ({} : OrgState) data =
          Except.error "UnboundLocalError: vrn_file_temp" := by
        unfold orgData
        rw [hvar, List.foldlM_cons,
          herr (addBam {} data) (addBam_temp {} data)]
        rfl
      rw [horg]
      rfl
    unfold _organize_variants
    rw [hfold]

/-- Tumor sample whose single record's path lacks ".vcf". -/
def tumorSample0 : Data :=
  { name := ("0", "T0"), metadata := some { phenotype := some "tumor" },
    variants := [{ variantcaller := "a", vrn_file := some "y.bcf" }],
    algorithm_keys := ["ensemble"] }

/-- Witness for C9's amended theorem: organizing a batch whose first tumor
record has a non-".vcf" path fails with the unbound-variable error. -/
theorem tumor_nonvcf_unbound_temp_witness :
    _organize_variants [tumorSample0] "b1" =
      Except.error "UnboundLocalError: vrn_file_temp" :=
  (tumor_nonvcf_unbound_temp tumorSample0 {}
    { variantcaller := "a", vrn_file := some "y.bcf" } "y.bcf"
    rfl rfl (by decide)).2.2 [] [] "b1" rfl

/-- Tumor sample whose first record binds `vrn_file_temp` and whose second
record's path lacks ".vcf". -/
def tumorSampleStale : Data :=
  { name := ("0", "T"), metadata := some { phenotype := some "tumor" },
    variants := [{ variantcaller := "a", vrn_file := some "x.vcf" },
                 { variantcaller := "b", vrn_file := some "y.bcf" }],
    algorithm_keys := ["ensemble"] }

/-- Counterexample to C9 as stated: the second tumor record's path "y.bcf"
does not contain ".vcf", yet the step does not fail — the stale binding left
by the first record is reused, and a substitute file (with the stale name
plus the gzip suffix) is produced and contributed. -/
theorem tumor_stale_temp_substitute_produced :
    strContains "y.bcf" ".vcf" = false ∧
    tumorPhenotype tumorSampleStale = true ∧
    _organize_variants [tumorSampleStale] "b1" =
      Except.ok ⟨["a", "b"],
        [some "x_tumorOnly_noFilteredCalls.vcf",
         some "x_tumorOnly_noFilteredCalls.vcf_tumorOnly_noFilteredCalls.vcf.gz"],
        [],
        [Tool.selectSample "x.vcf" "T" "x_tumorOnly_noFilteredCalls.vcf",
         Tool.selectSample "y.bcf" "T"
           "x_tumorOnly_noFilteredCalls.vcf_tumorOnly_noFilteredCalls.vcf.gz"]⟩ :=
  ⟨rfl, rfl, rfl⟩

/-! ## C2: the all-empty degenerate case -/

/-- Scanning representative files that are all present and variant-free
reports no variants. -/
theorem existVariants_all_empty (fs : FS) :
    ∀ (l : List (Option String)),
      (∀ f ∈ l, ∃ p, f = some p ∧ fs.hasVariants p = false) →
      existVariants fs l = Except.ok false := by
  intro l
  induction l with
  | nil => intro _; rfl
  | cons f rest ih =>
    intro h
    obtain ⟨p, hp, hnv⟩ := h f (List.mem_cons_self _ _)
    subst hp
    simp [existVariants, hnv,
      ih (fun x hx => h x (List.mem_cons_of_mem _ hx))]

/-- C2 (amended): when every per-caller representative file produced by the
organization step is variant-free, neither consensus strategy is attempted —
no consensus tool appears in the trace beyond the organization step's own
invocations — and a well-formed empty `{batch_id}-ensemble.vcf` result with
variantcaller "ensemble" and a null bed file is synthesized. -/
theorem combine_calls_all_empty_no_consensus_tool (fs : FS)
    (batch_id work_dir : String) (samples : List Data) (data : Data)
    (org : OrgResult)
    (horg : _organize_variants samples batch_id = Except.ok org)
    (hempty : ∀ f ∈ org.vrn_files, ∃ p, f = some p ∧ fs.hasVariants p = false) :
    combine_calls fs batch_id samples data work_dir =
      Except.ok
        (⟨"ensemble",
          some (ensembleOutVcf (work_dir ++ "/ensemble/" ++ batch_id) batch_id),
          none, none⟩, org.trace) := by
  have hev := existVariants_all_empty fs org.vrn_files hempty
  unfold combine_calls
  rw [horg]
  dsimp only
  rw [hev]

/-- Witness for C2's amended theorem: a one-sample, one-caller batch with a
variant-free file yields the empty ensemble result with an empty trace. -/
theorem combine_calls_all_empty_no_consensus_tool_witness :
    combine_calls fsAllAbsent "b1" [orgS1] orgS1 "work" =
      Except.ok
        (⟨"ensemble",
          some (ensembleOutVcf ("work" ++ "/ensemble/" ++ "b1") "b1"),
          none, none⟩, ([] : List Tool)) :=
  combine_calls_all_empty_no_consensus_tool fsAllAbsent "b1" "work" [orgS1]
    orgS1 ⟨["a"], [some "fa1"], [], []⟩ rfl
    (by
      intro f hf
      simp only [List.mem_singleton] at hf
      subst hf
      exact ⟨"fa1", rfl, rfl⟩)

/-- All-empty batch member with caller "c" and file "f1". -/
def emptyS1 : Data :=
  { name := ("0", "e1"),
    variants := [{ variantcaller := "c", vrn_file := some "f1" }],
    algorithm_keys := ["ensemble"] }

/-- All-empty batch member with caller "c" and file "f2". -/
def emptyS2 : Data :=
  { name := ("0", "e2"),
    variants := [{ variantcaller := "c", vrn_file := some "f2" }],
    algorithm_keys := ["ensemble"] }

/-- Counterexample to C2 as stated: in a two-sample batch whose contributing
files are all variant-free, `combine_calls` still invokes an external tool —
the multi-sample merge of the organization step — before the all-empty check
synthesizes the empty output, so the invocation trace is non-empty. -/
theorem combine_calls_all_empty_invokes_merge_tool :
    fsAllAbsent.hasVariants "f1" = false ∧
    fsAllAbsent.hasVariants "f2" = false ∧
    fsAllAbsent.hasVariants (multisampleVcfPath "b1" "c") = false ∧
    combine_calls fsAllAbsent "b1" [emptyS1, emptyS2] emptyS1 "work" =
      Except.ok
        (⟨"ensemble", some (ensembleOutVcf "work/ensemble/b1" "b1"),
          none, none⟩,
         [Tool.multisampleVcf [some "f1", some "f2"] "b1" "c"]) ∧
    [Tool.multisampleVcf [some "f1", some "f2"] "b1" "c"] ≠ ([] : List Tool) :=
  ⟨rfl, rfl, rfl, rfl, by decide⟩

end Bcbio
